import Mathlib

/-!
# Verification of the Campus Guide Robot dialogue-understanding core

This development gives a shallow embedding, in Lean 4, of the dialogue
understanding pipeline of the campus guide robot
(`modules/intent_parser.py`, the wake-word / state-machine /
two-pass-re-recognition parts of `main.py`, and the constants of
`config.py`), and proves properties of that embedding.

Modelling conventions:

* Python strings are modelled as `List Char` (`Str`), restricted to the
  ASCII texts the program works with; `str.lower`, `str.strip` and
  `str.split` are modelled character by character with Python semantics.
* Python floats are modelled as exact rationals (`ℚ`).  The confidence
  arithmetic of the program (products and sums of small decimal
  constants) is exact, so the comparison behaviour is preserved.
* The `fuzzywuzzy` library (with its pure-Python `difflib` backend) is
  modelled in full: `SequenceMatcher.get_matching_blocks`,
  `SequenceMatcher.ratio`, `fuzz.ratio`, `fuzz.partial_ratio` and
  `fuzz.token_set_ratio` are implemented below.  The strings involved
  are far below difflib's autojunk threshold (200 characters), so the
  junk machinery is inert and is not modelled.
* The Python regular-expression engine is modelled concretely for every
  regex the pipeline applies to individual words or literals (the
  word-boundary substitutions of the normalizer), and as an oracle
  (`SearchFn`) for the eight compiled intent patterns, whose concrete
  leftmost-match results on concrete inputs are supplied explicitly.
-/

/-- Python strings, as lists of characters. -/
abbrev Str := List Char

/-- The whitespace characters recognised by Python `str.split()` /
`str.strip()` on ASCII text: space, tab, newline, carriage return,
vertical tab, form feed. -/
def isPySpace (c : Char) : Bool :=
  c = ' ' || c = Char.ofNat 9 || c = Char.ofNat 10 || c = Char.ofNat 13 ||
  c = Char.ofNat 11 || c = Char.ofNat 12

/-- Python regex word characters (`\w`) on ASCII text:
letters, digits and underscore. -/
def isWordChar (c : Char) : Bool :=
  ('a' ≤ c && c ≤ 'z') || ('A' ≤ c && c ≤ 'Z') || ('0' ≤ c && c ≤ '9') || c = '_'

/-- ASCII lower-casing of one character (Python `str.lower` on ASCII):
code points 65–90 are shifted by 32, everything else is unchanged. -/
def lowerC (c : Char) : Char :=
  if 65 ≤ c.toNat && c.toNat ≤ 90 then Char.ofNat (c.toNat + 32) else c

/-- ASCII lower-casing of a string (Python `str.lower` on ASCII). -/
def lowerStr (s : Str) : Str := s.map lowerC

/-- Drop leading Python whitespace. -/
def dropWS : Str → Str
  | [] => []
  | c :: r => if isPySpace c then dropWS r else c :: r

/-- Python `str.strip()`: drop leading and trailing whitespace. -/
def pyStrip (s : Str) : Str := ((dropWS ((dropWS s).reverse)).reverse)

/-- Helper for `pySplit`: accumulate the current word (reversed). -/
def pySplitAux : Str → Str → List Str
  | [], acc => if acc.isEmpty then [] else [acc.reverse]
  | c :: r, acc =>
      if isPySpace c then
        if acc.isEmpty then pySplitAux r [] else acc.reverse :: pySplitAux r []
      else pySplitAux r (c :: acc)

/-- Python `str.split()` with no argument: split on runs of whitespace,
dropping empty fields. -/
def pySplit (s : Str) : List Str := pySplitAux s []

/-- Word counter: `wc s b` is the number of maximal non-whitespace runs
of `s`, where `b` records whether the scan starts inside a run. -/
def wc : Str → Bool → Nat
  | [], _ => 0
  | c :: r, b =>
      if isPySpace c then wc r false
      else if b then wc r true else wc r true + 1

/-- Join a list of words with single spaces (Python `" ".join`). -/
def joinSpace : List Str → Str
  | [] => []
  | [w] => w
  | w :: ws => w ++ ' ' :: joinSpace ws

/-- `strHasPre n h`: `n` is a prefix of `h`. -/
def strHasPre : Str → Str → Bool
  | [], _ => true
  | _ :: _, [] => false
  | a :: as, b :: bs => a = b && strHasPre as bs

/-- Python substring test (`needle in hay`). -/
def containsSub (needle : Str) : Str → Bool
  | [] => strHasPre needle []
  | c :: rest => strHasPre needle (c :: rest) || containsSub needle rest

/-! ## difflib and fuzzywuzzy

Model of the pure-Python backend of `fuzzywuzzy` 0.18
(`difflib.SequenceMatcher` with `isjunk = None` and autojunk inert on
strings shorter than 200 characters, which covers every string this
program compares).
-/

/-- Length of the common run of two strings starting at their heads. -/
def commonRun : Str → Str → Nat
  | a :: as, b :: bs => if a = b then commonRun as bs + 1 else 0
  | _, _ => 0

/-- One candidate of `findLongestMatch`: `(i, j, k)` where `k` is the
common run of `a` from `i` and `b` from `j`. -/
def flmCands (a b : Str) : List (Nat × Nat × Nat) :=
  (List.range a.length).flatMap fun i =>
    (List.range b.length).map fun j => (i, j, commonRun (a.drop i) (b.drop j))

/-- `difflib.SequenceMatcher.find_longest_match` on whole segments (no
junk): the longest common run, ties resolved towards the smallest start
in `a`, then the smallest start in `b`.  (difflib scans run *end*
positions in lexicographic order and replaces the incumbent only for a
strictly longer run, so the maximal run with the lexicographically
smallest end — equivalently, since maximal runs share their length, the
smallest start — wins; this fold reproduces that by enumerating start
positions in the same order with the same strict replacement.) -/
def findLongestMatch (a b : Str) : Nat × Nat × Nat :=
  (flmCands a b).foldl
    (fun best cand => if best.2.2 < cand.2.2 then cand else best) (0, 0, 0)

/-- `difflib.SequenceMatcher.get_matching_blocks` (without the final
merge of adjacent blocks and without the terminating zero block, neither
of which affects the total matched size nor the set of alignment windows
used by `partial_ratio`).  `fuel` bounds the recursion depth; any fuel
of at least `a.length + b.length + 1` is exact. -/
def matchingBlocksF : Nat → Str → Str → List (Nat × Nat × Nat)
  | 0, _, _ => []
  | fuel + 1, a, b =>
      let (i, j, k) := findLongestMatch a b
      if k = 0 then []
      else
        matchingBlocksF fuel (a.take i) (b.take j) ++
        (i, j, k) ::
        (matchingBlocksF fuel (a.drop (i + k)) (b.drop (j + k))).map
          (fun bl => (bl.1 + (i + k), bl.2.1 + (j + k), bl.2.2))

/-- `get_matching_blocks` with sufficient fuel. -/
def matchingBlocks (a b : Str) : List (Nat × Nat × Nat) :=
  matchingBlocksF (a.length + b.length + 1) a b

/-- `difflib.SequenceMatcher.ratio` as an exact non-negative fraction
`(numerator, denominator)`: `2 * M / T` where `M` is the total size of
the matching blocks and `T` the total length; `1` when both strings are
empty.  (The source computes this as a float; all the fractions that
arise here are exact, so the comparison and rounding behaviour is
preserved.) -/
def seqRatioFrac (a b : Str) : Nat × Nat :=
  let t := a.length + b.length
  if t = 0 then (1, 1)
  else (2 * (matchingBlocks a b).foldl (fun s bl => s + bl.2.2) 0, t)

/-- Python `round(x / y)` for natural `x` and positive `y` (banker's
rounding, half to even), exactly. -/
def pyRoundFrac (x y : Nat) : Nat :=
  let q := x / y
  let r := x % y
  if 2 * r < y then q
  else if y < 2 * r then q + 1
  else if q % 2 = 0 then q else q + 1

/-- The larger of two non-negative fractions. -/
def maxFrac (p q : Nat × Nat) : Nat × Nat :=
  if p.1 * q.2 < q.1 * p.2 then q else p

/-- `fuzzywuzzy.fuzz.ratio`: `int(round(100 * SequenceMatcher.ratio))`. -/
def fuzzRatioNat (a b : Str) : Nat :=
  pyRoundFrac (100 * (seqRatioFrac a b).1) (seqRatioFrac a b).2

/-- The per-block loop of `fuzz.partial_ratio`: for each matching block,
align the shorter string against the window of the longer string that
starts at `max (j - i) 0`, score it with `SequenceMatcher.ratio`, return
`100` as soon as a window scores above `0.995`, otherwise round the
maximum window score. -/
def partialLoop (shorter longer : Str) :
    List (Nat × Nat × Nat) → List (Nat × Nat) → Nat
  | [], acc =>
      let m := acc.foldl maxFrac (0, 1)
      pyRoundFrac (100 * m.1) m.2
  | bl :: bls, acc =>
      let ls := bl.2.1 - bl.1
      let window := (longer.drop ls).take shorter.length
      let r := seqRatioFrac shorter window
      if 199 * r.2 < 200 * r.1 then 100
      else partialLoop shorter longer bls (r :: acc)

/-- `fuzzywuzzy.fuzz.partial_ratio` (pure-Python backend): best
alignment of the shorter string inside the longer one, scored over the
candidate windows derived from the matching blocks (including the
terminating zero block). -/
def fuzzPartNat (s1 s2 : Str) : Nat :=
  let (shorter, longer) := if s1.length ≤ s2.length then (s1, s2) else (s2, s1)
  let blocks := matchingBlocks shorter longer ++ [(shorter.length, longer.length, 0)]
  partialLoop shorter longer blocks []

/-- `fuzzywuzzy.utils.full_process`: replace every non-`\w` character
by a space, lower-case, strip. -/
def fullProcess (s : Str) : Str :=
  pyStrip (lowerStr (s.map fun c => if isWordChar c then c else ' '))

/-- Lexicographic order on ASCII strings (Python `str` comparison). -/
def strLt : Str → Str → Bool
  | [], [] => false
  | [], _ :: _ => true
  | _ :: _, [] => false
  | a :: as, b :: bs =>
      if a.toNat < b.toNat then true
      else if b.toNat < a.toNat then false
      else strLt as bs

/-- Insert a string into a lexicographically sorted list. -/
def sortInsert (w : Str) : List Str → List Str
  | [] => [w]
  | x :: xs => if strLt w x then w :: x :: xs else x :: sortInsert w xs

/-- Python `sorted` on a list of strings. -/
def sortStrs (l : List Str) : List Str := l.foldr sortInsert []

/-- Deduplicate, keeping first occurrences (models a Python `set` of the
tokens; the result is subsequently sorted, so order does not matter). -/
def dedup : List Str → List Str
  | [] => []
  | x :: xs => x :: (dedup xs).filter fun y => ¬ (y = x)

/-- `fuzzywuzzy.fuzz.token_set_ratio`: process both strings, split into
token sets, and take the best pairwise `fuzz.ratio` among the sorted
intersection and the two sorted combinations. -/
def fuzzTokenSetNat (s1 s2 : Str) : Nat :=
  let p1 := fullProcess s1
  let p2 := fullProcess s2
  if p1.isEmpty then 0
  else if p2.isEmpty then 0
  else
    let tokens1 := dedup (pySplit p1)
    let tokens2 := dedup (pySplit p2)
    let inter := sortStrs (tokens1.filter fun t => t ∈ tokens2)
    let d12 := sortStrs (tokens1.filter fun t => ¬ t ∈ tokens2)
    let d21 := sortStrs (tokens2.filter fun t => ¬ t ∈ tokens1)
    let sortedSect := pyStrip (joinSpace inter)
    let comb12 := pyStrip (joinSpace inter ++ ' ' :: joinSpace d12)
    let comb21 := pyStrip (joinSpace inter ++ ' ' :: joinSpace d21)
    max (fuzzRatioNat sortedSect comb12)
      (max (fuzzRatioNat sortedSect comb21) (fuzzRatioNat comb12 comb21))

/-! ## Text normalization (`IntentParser._preprocess_text`)

The normalizer applies three ordered stages: the STT correction table,
the vocabulary-guarded phonetic substitutions, and the abbreviation
expansions.  Every table pattern is `\b<literal>\b` with `IGNORECASE`,
whose engine behaviour is implemented concretely below.
-/

/-- Case-insensitive prefix test: `key` (given lower-case) against the
head of the text. -/
def ciHasPre : Str → Str → Bool
  | [], _ => true
  | _ :: _, [] => false
  | k :: ks, c :: cs => k = lowerC c && ciHasPre ks cs

/-- Word boundary after a position whose previous character is a word
character: the remainder starts with a non-word character or is empty. -/
def wbAt : Str → Bool
  | [] => true
  | c :: _ => ¬ isWordChar c

/-- Scanner of `re.sub(r"\b" + re.escape(key) + r"\b", repl, text,
flags=re.IGNORECASE)` for a key that starts and ends with word
characters (every key of the two tables does): scan left to right,
replace each non-overlapping case-insensitive occurrence of `key` that
is delimited by word boundaries of the original text, and continue
scanning the original text after the matched region.  `fuel` bounds the
scan; `text.length + 1` is always sufficient. -/
def replaceWBGo (key repl : Str) : Nat → Option Char → Str → Str
  | 0, _, t => t
  | fuel + 1, prev, t =>
      match t with
      | [] => []
      | c :: rest =>
          let bBefore := match prev with
            | none => true
            | some p => ¬ isWordChar p
          if bBefore && ciHasPre key t && wbAt (t.drop key.length) then
            repl ++ replaceWBGo key repl fuel ((t.take key.length).getLast?) (t.drop key.length)
          else c :: replaceWBGo key repl fuel (some c) rest

/-- `re.sub` of one word-boundary-delimited table entry over a text. -/
def replaceWB (key repl t : Str) : Str := replaceWBGo key repl (t.length + 1) none t

/-- The key `lord` followed by an apostrophe and `s`
(the one correction key that contains a non-letter). -/
def lordsKey : Str := 'l' :: 'o' :: 'r' :: 'd' :: Char.ofNat 39 :: ['s']

/-- Pair of Python strings as a pair of `Str`. -/
def strPair (p : String × String) : Str × Str := (p.1.toList, p.2.toList)

/-- `STT_CORRECTIONS` (source order of the Python dict literal,
which Python preserves during iteration). -/
def STT_CORRECTIONS : List (Str × Str) :=
  ([("see us", "CS"), ("see yes", "CS"), ("see as", "CS"), ("see s", "CS"),
    ("c s", "CS"), ("easy", "ECE"), ("e c e", "ECE"), ("ee see ee", "ECE"),
    ("i tea", "IT"), ("eye tea", "IT"), ("i t", "IT"),
    ("emmy see hey", "MCA"), ("em see a", "MCA"), ("m c a", "MCA"),
    ("bee see hey", "BCA"), ("b c a", "BCA"), ("bee see a", "BCA"),
    ("em bee hey", "MBA"), ("m b a", "MBA"),
    ("bee tech", "B.Tech"), ("em tech", "M.Tech"),
    ("doc", "Dr."), ("doc to", "Doctor"), ("doc tar", "Doctor"),
    ("mister", "Mr."), ("miss is", "Mrs."), ("miss us", "Mrs."),
    ("vhere", "where"), ("vhat", "what"), ("vhen", "when"),
    ("vhich", "which"), ("vho", "who"), ("vhy", "why"), ("vith", "with"),
    ("ve", "we"), ("vant", "want"), ("vork", "work"), ("vay", "way"),
    ("tink", "think"), ("ting", "thing"), ("dat", "that"), ("dis", "this"),
    ("dere", "there"), ("dem", "them"), ("den", "then"), ("de", "the"),
    ("dey", "they"), ("wid", "with"), ("baat", "bath"), ("mout", "mouth"),
    ("liberry", "library"), ("libbary", "library"), ("hostle", "hostel"),
    ("hostall", "hostel"), ("affice", "office"), ("offis", "office"),
    ("can teen", "canteen"), ("kanteen", "canteen"),
    ("caffeteria", "cafeteria"), ("labortary", "laboratory"),
    ("labrotary", "laboratory"), ("auditoriyam", "auditorium"),
    ("semminar", "seminar"), ("placements", "placement"),
    ("admishun", "admission"), ("admishn", "admission"),
    ("depart meant", "department"), ("departmant", "department"),
    ("deparment", "department"), ("principel", "principal"),
    ("prinsiple", "principal"), ("prncipal", "principal"),
    ("professar", "professor"), ("profesar", "professor")]
   : List (String × String)).map strPair ++
  [(lordsKey, "Lourdes".toList)] ++
  ([("lords", "Lourdes"), ("lourds", "Lourdes"), ("lowrdes", "Lourdes"),
    ("martha", "Matha"), ("mata", "Matha"), ("matta", "Matha"),
    ("raja sh", "Rajesh"), ("rajash", "Rajesh"), ("sure esh", "Suresh"),
    ("suresh", "Suresh"), ("pree ya", "Priya"), ("preya", "Priya"),
    ("sun ill", "Sunil"), ("suneel", "Sunil"), ("kumar", "Kumar"),
    ("koomar", "Kumar"), ("sharme", "Sharma"), ("sharmah", "Sharma")]
   : List (String × String)).map strPair

/-- `KNOWN_VOCABULARY`: the guard set of the phonetic substitutions
(a Python set; only membership is ever used). -/
def KNOWN_VOCABULARY : List Str :=
  (["where", "what", "when", "which", "who", "why", "with",
    "want", "way", "work", "we", "will", "well", "were",
    "think", "thing", "that", "this", "there", "them", "then", "the", "they",
    "mention", "department", "placement", "admission", "auditorium",
    "navigation", "direction", "location", "information",
    "question", "session", "permission", "decision",
    "management", "assessment", "environment", "development"]
   : List String).map String.toList

/-- `ABBREVIATION_EXPANSIONS` (source order). -/
def ABBREVIATION_EXPANSIONS : List (Str × Str) :=
  ([("cs", "Computer Science"), ("ece", "Electronics and Communication"),
    ("it", "Information Technology"), ("mca", "MCA"), ("bca", "BCA"),
    ("mech", "Mechanical")] : List (String × String)).map strPair

/-- One phonetic substitution regex, decomposed: an optional leading
word boundary, a lower-case literal, a look-ahead test on the remainder
after the literal, an optional word boundary after the literal, and the
replacement.  All seven source patterns have this shape. -/
structure PhonRule where
  preB : Bool
  lit : Str
  look : Str → Bool
  postB : Bool
  repl : Str

/-- The look-ahead that always holds (rules without a look-ahead). -/
def lookAny : Str → Bool := fun _ => true

/-- Look-ahead `(?=[aeiou])` under `IGNORECASE`. -/
def lookVowel : Str → Bool
  | [] => false
  | c :: _ => lowerC c = 'a' || lowerC c = 'e' || lowerC c = 'i' ||
              lowerC c = 'o' || lowerC c = 'u'

/-- Look-ahead `(?=is\b|at\b|ere\b|ey\b|em\b|en\b)` under `IGNORECASE`. -/
def lookDth (rest : Str) : Bool :=
  (ciHasPre ("is".toList) rest && wbAt (rest.drop 2)) ||
  (ciHasPre ("at".toList) rest && wbAt (rest.drop 2)) ||
  (ciHasPre ("ere".toList) rest && wbAt (rest.drop 3)) ||
  (ciHasPre ("ey".toList) rest && wbAt (rest.drop 2)) ||
  (ciHasPre ("em".toList) rest && wbAt (rest.drop 2)) ||
  (ciHasPre ("en".toList) rest && wbAt (rest.drop 2))

/-- Look-ahead `(?=am|um)` under `IGNORECASE`. -/
def lookIum (rest : Str) : Bool :=
  ciHasPre ("am".toList) rest || ciHasPre ("um".toList) rest

/-- `PHONETIC_SUBSTITUTIONS` in source order.  The last pattern
(`iy(?=am|um)\b`) demands a word boundary at a position that its own
look-ahead forces to sit between two word characters, so it can never
fire; it is embedded faithfully all the same. -/
def PHONETIC_SUBSTITUTIONS : List PhonRule :=
  [⟨true,  "vh".toList,    lookAny,   false, "wh".toList⟩,
   ⟨true,  "v".toList,     lookVowel, false, "w".toList⟩,
   ⟨false, "shun".toList,  lookAny,   true,  "tion".toList⟩,
   ⟨false, "mant".toList,  lookAny,   true,  "ment".toList⟩,
   ⟨false, "shion".toList, lookAny,   true,  "sion".toList⟩,
   ⟨true,  "d".toList,     lookDth,   false, "th".toList⟩,
   ⟨false, "iy".toList,    lookIum,   true,  "ium".toList⟩]

/-- Scanner of `re.sub(pattern, replacement, word, flags=re.IGNORECASE)`
for one decomposed phonetic rule (every rule literal starts and ends
with a word character, so the optional `\b`s reduce to the neighbouring
character tests). -/
def subRuleGo (r : PhonRule) : Nat → Option Char → Str → Str
  | 0, _, t => t
  | fuel + 1, prev, t =>
      match t with
      | [] => []
      | c :: rest =>
          let bBefore := match prev with
            | none => true
            | some p => ¬ isWordChar p
          let after := t.drop r.lit.length
          if (!r.preB || bBefore) && ciHasPre r.lit t && r.look after &&
             (!r.postB || wbAt after) then
            r.repl ++ subRuleGo r fuel ((t.take r.lit.length).getLast?) after
          else c :: subRuleGo r fuel (some c) rest

/-- `re.sub` of one phonetic rule over one word. -/
def subRule (r : PhonRule) (w : Str) : Str := subRuleGo r (w.length + 1) none w

/-- The per-word loop of `IntentParser._apply_phonetic_subs`: try the
rules in order and accept the first whose output, lower-cased, differs
from the word and lies in `KNOWN_VOCABULARY`; otherwise keep the word. -/
def phonWordGo (w : Str) : List PhonRule → Str
  | [] => w
  | r :: rs =>
      let cand := subRule r w
      if lowerStr cand ≠ lowerStr w ∧ lowerStr cand ∈ KNOWN_VOCABULARY then cand
      else phonWordGo w rs

/-- The treatment of one word by `IntentParser._apply_phonetic_subs`. -/
def phonWord (w : Str) : Str := phonWordGo w PHONETIC_SUBSTITUTIONS

/-- `IntentParser._apply_phonetic_subs`: split into words, rewrite each
word independently, rejoin with single spaces. -/
def applyPhoneticSubs (t : Str) : Str := joinSpace ((pySplit t).map phonWord)

/-- `IntentParser._preprocess_text`: STT corrections (each table entry
is one full `re.sub` pass, later entries seeing the output of earlier
ones), then phonetic substitutions, then abbreviation expansions. -/
def preprocessText (t : Str) : Str :=
  let r1 := STT_CORRECTIONS.foldl (fun acc p => replaceWB p.1 p.2 acc) t
  let r2 := applyPhoneticSubs r1
  ABBREVIATION_EXPANSIONS.foldl (fun acc p => replaceWB p.1 p.2 acc) r2

/-! ## Intent scoring (`IntentParser._score_intents`)

The eight compiled regex patterns are evaluated through an oracle
`SearchFn` mapping an intent tag and the text to the leftmost match
substring returned by `pattern.search(text)` (`None` when the pattern
does not match); the scoring fold itself is embedded exactly.
-/

/-- The regex-engine oracle: `sf name text` is the substring matched by
the pattern of intent `name` on `text` (`re.Pattern.search`). -/
abbrev SearchFn := String → Str → Option Str

/-- The intent tags of `INTENT_PATTERNS`, in source order. -/
def INTENT_PATTERN_NAMES : List String :=
  ["navigation", "faculty_info", "student_lookup", "department_info",
   "campus_info", "greeting", "farewell", "help"]

/-- `INTENT_WEIGHTS.get(name, 0.5)`. -/
def intentWeight (n : String) : ℚ :=
  if n = "navigation" then 9/10
  else if n = "faculty_info" then 9/10
  else if n = "student_lookup" then 17/20
  else if n = "department_info" then 17/20
  else if n = "campus_info" then 7/10
  else if n = "greeting" then 3/5
  else if n = "farewell" then 3/5
  else if n = "help" then 13/20
  else 1/2

/-- The confidence assigned to intent `n` on `text`:
`base_weight * (0.7 + 0.3 * span_ratio)` when the pattern matches,
nothing otherwise. -/
def confOf (sf : SearchFn) (text : Str) (n : String) : Option ℚ :=
  (sf n text).map fun m =>
    intentWeight n * (7/10 + 3/10 * ((m.length : ℚ) / (text.length : ℚ)))

/-- The scoring fold of `_score_intents`: a candidate replaces the
incumbent only when its confidence is strictly higher. -/
def scoreGo (φ : String → Option ℚ) : List String → String × ℚ → String × ℚ
  | [], best => best
  | n :: ns, best =>
      match φ n with
      | none => scoreGo φ ns best
      | some c => if best.2 < c then scoreGo φ ns (n, c) else scoreGo φ ns best

/-- `IntentParser._score_intents`: score all patterns, keep the strictly
best one; `("unknown", 0)` for empty text or when nothing matches. -/
def scoreIntents (sf : SearchFn) (text : Str) : String × ℚ :=
  if text.length = 0 then ("unknown", 0)
  else scoreGo (confOf sf text) INTENT_PATTERN_NAMES ("unknown", 0)

/-! ## Entity extraction and conflict resolution -/

/-- The entity dictionary built by `IntentParser.parse`: it only ever
holds the three value keys and their paired score keys. -/
structure Entities where
  location : Option Str := none
  location_score : Option Nat := none
  faculty_name : Option Str := none
  faculty_score : Option Nat := none
  department_name : Option Str := none
  department_score : Option Nat := none
deriving DecidableEq, Repr

/-- Python truthiness of the entity dict: some key is present. -/
def Entities.nonempty (e : Entities) : Bool :=
  e.location.isSome || e.location_score.isSome || e.faculty_name.isSome ||
  e.faculty_score.isSome || e.department_name.isSome || e.department_score.isSome

/-- The loop of `IntentParser._best_fuzzy_match`: an exact
case-insensitive substring hit returns immediately with score 100;
otherwise the candidate is scored with `fuzz.partial_ratio`, improved by
`fuzz.token_set_ratio` only when it has at least three tokens, and a
strictly better score replaces the incumbent. -/
def bfmGo (textLower : Str) : List Str → Option Str → Nat → Option (Str × Nat)
  | [], bestCand, bestScore =>
      match bestCand with
      | some c => some (c, bestScore)
      | none => none
  | cand :: cands, bestCand, bestScore =>
      let candLower := lowerStr cand
      if containsSub candLower textLower then some (cand, 100)
      else
        let score := fuzzPartNat textLower candLower
        let score :=
          if 3 ≤ (pySplit candLower).length then
            max score (fuzzTokenSetNat textLower candLower)
          else score
        if bestScore < score then bfmGo textLower cands (some cand) score
        else bfmGo textLower cands bestCand bestScore

/-- `IntentParser._best_fuzzy_match` with the final threshold test.
(With a threshold of 0 and no scoring candidate the source would return
the degenerate pair `(None, 0)`; every configured threshold is positive
— the default is 70 — and there that branch yields no match, as here.) -/
def bestFuzzyMatch (threshold : Nat) (text : Str) (candidates : List Str) :
    Option (Str × Nat) :=
  match bfmGo (lowerStr text) candidates none 0 with
  | some (c, s) => if threshold ≤ s then some (c, s) else none
  | none => none

/-- The candidate name lists and fuzzy threshold handed to
`IntentParser.__init__`. -/
structure ParserCfg where
  location_names : List Str
  faculty_names : List Str
  department_names : List Str
  fuzzy_threshold : Nat

/-- Step 3 of `IntentParser.parse`: the three fuzzy lookups, each
filling a value key and its paired score key. -/
def extractEntities (cfg : ParserCfg) (text : Str) : Entities :=
  let loc := bestFuzzyMatch cfg.fuzzy_threshold text cfg.location_names
  let fac := bestFuzzyMatch cfg.fuzzy_threshold text cfg.faculty_names
  let dep := bestFuzzyMatch cfg.fuzzy_threshold text cfg.department_names
  { location := loc.map Prod.fst
    location_score := loc.map Prod.snd
    faculty_name := fac.map Prod.fst
    faculty_score := fac.map Prod.snd
    department_name := dep.map Prod.fst
    department_score := dep.map Prod.snd }

/-- Step 4 of `IntentParser.parse`: when the pattern scoring produced
`unknown` but entities were found, infer the intent from the entities in
the fixed priority order location, faculty, department.  (The source
indexes the score keys directly; inside `parse` a value key is always
paired with its score key, so `getD` is exact there.) -/
def inferFromEntities (intent : String) (conf : ℚ) (e : Entities) : String × ℚ :=
  if intent = "unknown" ∧ e.nonempty then
    if e.location.isSome then ("navigation", ((e.location_score.getD 0 : Nat) : ℚ) / 100)
    else if e.faculty_name.isSome then
      ("faculty_info", ((e.faculty_score.getD 0 : Nat) : ℚ) / 100)
    else if e.department_name.isSome then
      ("department_info", ((e.department_score.getD 0 : Nat) : ℚ) / 100)
    else (intent, conf)
  else (intent, conf)

/-- `IntentParser._resolve_entity_conflicts`: when both `location` and
`department_name` are present, drop one of them together with its score
key — the department for a navigation intent, the location for a
department-info intent, otherwise the lower-scoring one (the department
on ties). -/
def resolveEntityConflicts (intent : String) (e : Entities) : Entities :=
  if e.location = none ∨ e.department_name = none then e
  else if intent = "navigation" then
    { e with department_name := none, department_score := none }
  else if intent = "department_info" then
    { e with location := none, location_score := none }
  else if e.department_score.getD 0 ≤ e.location_score.getD 0 then
    { e with department_name := none, department_score := none }
  else
    { e with location := none, location_score := none }

/-- The result record of `IntentParser.parse`. -/
structure ParsedIntent where
  intent : String
  confidence : ℚ
  entities : Entities
  raw_text : Str
deriving DecidableEq, Repr

/-- `IntentParser.parse`: strip, handle empty input, normalize, score
the patterns, extract entities, apply the entity-driven fallback, and
resolve entity conflicts.  `raw_text` is the stripped input. -/
def parse (cfg : ParserCfg) (sf : SearchFn) (text : Str) : ParsedIntent :=
  let raw := pyStrip text
  if raw.isEmpty then
    { intent := "unknown", confidence := 0, entities := {}, raw_text := raw }
  else
    let t := preprocessText raw
    let ic := scoreIntents sf t
    let e := extractEntities cfg t
    let ic2 := inferFromEntities ic.1 ic.2 e
    { intent := ic2.1, confidence := ic2.2,
      entities := resolveEntityConflicts ic2.1 e, raw_text := raw }

/-- `config.FUZZY_THRESHOLD`: the minimum fuzzy score for an entity
match. -/
def FUZZY_THRESHOLD : Nat := 70

/-- `config.GRAMMAR_RERECOGNITION_ENABLED`. -/
def GRAMMAR_RERECOGNITION_ENABLED : Bool := true

/-- `config.ENTITY_STRONG_MATCH_THRESHOLD`: the fuzzy score above which
no re-recognition is needed. -/
def ENTITY_STRONG_MATCH_THRESHOLD : Nat := 80

/-! ## Wake-word detection (`CampusRobot._matches_wake_word`) -/

/-- `config.WAKE_WORD`. -/
def WAKE_WORD : Str := "hey robot".toList

/-- `config.WAKE_WORD_THRESHOLD`. -/
def WAKE_WORD_THRESHOLD : Nat := 85

/-- `config.WAKE_WORD_VARIANTS`. -/
def WAKE_WORD_VARIANTS : List Str :=
  (["hey robot", "hey robat", "hay robot", "hay robat",
    "he robot", "he robat", "hei robot", "hey robo",
    "a robot", "hey robert", "hey roba", "hey robort",
    "hey roboat", "hai robot", "hai robat"] : List String).map String.toList

/-- The token-level validation loop of `_matches_wake_word`: every token
of the wake phrase must have some input token scoring at least 60 under
`fuzz.ratio`. -/
def wakeTokensOk (wakeWords textWords : List Str) : Bool :=
  wakeWords.all fun wt =>
    60 ≤ (textWords.map fun w => fuzzRatioNat wt w).foldl max 0

/-- `CampusRobot._matches_wake_word`: lower-case and strip, reject
inputs with fewer tokens than the wake phrase, accept on a substring hit
of the canonical phrase or of any variant, otherwise require the fuzzy
partial-ratio threshold and the token-level validation. -/
def matchesWakeWord (text : Str) : Bool :=
  let textLower := pyStrip (lowerStr text)
  let wakeWords := pySplit WAKE_WORD
  let textWords := pySplit textLower
  if textWords.length < wakeWords.length then false
  else if containsSub WAKE_WORD textLower then true
  else if WAKE_WORD_VARIANTS.any fun v => containsSub (lowerStr v) textLower then true
  else if fuzzPartNat WAKE_WORD textLower < WAKE_WORD_THRESHOLD then false
  else wakeTokensOk wakeWords textWords

/-! ## Two-pass grammar re-recognition
(`CampusRobot._try_grammar_rerecognition`) -/

/-- `IntentParser.get_entity_grammar`. -/
def getEntityGrammar (cfg : ParserCfg) (intent : String) : List Str :=
  if intent = "navigation" then cfg.location_names.map lowerStr
  else if intent = "faculty_info" then cfg.faculty_names.map lowerStr
  else if intent = "department_info" ∨ intent = "campus_info" then
    cfg.department_names.map lowerStr
  else []

/-- The three original entity scores, absent keys defaulting to the
strong value 100 (source lines 403–407). -/
def entityScoreList (e : Entities) : List Nat :=
  [e.location_score.getD 100, e.faculty_score.getD 100, e.department_score.getD 100]

/-- The three re-parsed entity scores, absent keys defaulting to 0
(source lines 426–430). -/
def newScoreList (e : Entities) : List Nat :=
  [e.location_score.getD 0, e.faculty_score.getD 0, e.department_score.getD 0]

/-- The originally weak scores: the original scores that are strictly
below the strong ceiling 100. -/
def weakScores (e : Entities) : List Nat :=
  (entityScoreList e).filter fun s => s < 100

/-- Python `max` over a list of naturals (the source only applies it to
non-empty lists, where the 0 base is absorbed). -/
def natMax (l : List Nat) : Nat := l.foldl max 0

/-- `CampusRobot._try_grammar_rerecognition`: skip when disabled, for
chit-chat intents, or when all present entity scores are strong; ask the
recognizer collaborator (`recognize`) for a grammar-constrained second
transcript; re-parse it and keep the new entities only when their best
score strictly exceeds the best originally-weak score, preserving the
original intent, confidence and raw text. -/
def tryGrammarRerecognition (enabled : Bool) (strongThr : Nat) (cfg : ParserCfg)
    (sf : SearchFn) (recognize : List Str → Option Str) (pi : ParsedIntent) :
    ParsedIntent :=
  if ¬enabled then pi
  else if pi.intent ∈ ["greeting", "farewell", "help", "unknown"] then pi
  else if (entityScoreList pi.entities).all (fun s => strongThr ≤ s) then pi
  else
    let grammar := getEntityGrammar cfg pi.intent
    if grammar.isEmpty then pi
    else
      match recognize grammar with
      | none => pi
      | some gtext =>
          if gtext.isEmpty then pi
          else
            let enh := parse cfg sf gtext
            if natMax (weakScores pi.entities) < natMax (newScoreList enh.entities) then
              { intent := pi.intent, confidence := pi.confidence,
                entities := enh.entities, raw_text := pi.raw_text }
            else pi

/-! ## Dialogue state machine (`RobotStateMachine`,
`CampusRobot._safe_transition`) -/

/-- The four states of `RobotStateMachine`. -/
inductive RState where
  | idle | listening | processing | responding
deriving DecidableEq, Repr

/-- The six declared transitions of `RobotStateMachine`. -/
inductive RTrans where
  | wake_up | hear_input | generate_response | finish_response | timeout | error
deriving DecidableEq, Repr

/-- The transition table declared in the `RobotStateMachine` class body:
`none` means the `statemachine` library raises `TransitionNotAllowed`. -/
def transTable : RState → RTrans → Option RState
  | .idle, .wake_up => some .listening
  | .listening, .hear_input => some .processing
  | .processing, .generate_response => some .responding
  | .responding, .finish_response => some .idle
  | .listening, .timeout => some .idle
  | .listening, .error => some .idle
  | .processing, .error => some .idle
  | .responding, .error => some .idle
  | _, _ => none

/-- `CampusRobot._safe_transition`: run the named transition under the
state lock, catching the invalid-transition exception; the boolean
reports success and the state is unchanged on failure. -/
def safeTransition (s : RState) (t : RTrans) : Bool × RState :=
  match transTable s t with
  | some s2 => (true, s2)
  | none => (false, s)

/-! ## Concrete instances used by the claim theorems -/

/-- A parser configuration with no candidate names and the default
fuzzy threshold 70, for concrete instances. -/
def cfgEmpty : ParserCfg :=
  { location_names := [], faculty_names := [], department_names := [],
    fuzzy_threshold := FUZZY_THRESHOLD }

/-- The pattern oracle of texts on which no intent pattern matches
(none of the eight regexes matches the nonsense text used below). -/
def sfNone : SearchFn := fun _ _ => none

/-- A one-location parser configuration for concrete instances. -/
def cfgGate : ParserCfg :=
  { location_names := [("gate".toList)], faculty_names := [],
    department_names := [], fuzzy_threshold := FUZZY_THRESHOLD }

/-- A concrete weak parse result for the C2 witness: a navigation
intent whose location entity scored only 50. -/
def piW : ParsedIntent :=
  { intent := "navigation", confidence := 1/2,
    entities := { location := some ("old gate".toList), location_score := some 50 },
    raw_text := ("go to the gate".toList) }

/-- The first character exists and is not whitespace. -/
def firstNonWS : Str → Bool
  | [] => false
  | c :: _ => !isPySpace c

/-- The configuration of the C7 end-to-end scenario: `Central Library`
is among the location candidates, with the default threshold 70. -/
def cfgC7 : ParserCfg :=
  { location_names := [("Central Library".toList)], faculty_names := [],
    department_names := [], fuzzy_threshold := FUZZY_THRESHOLD }

/-- Oracle for the leftmost matches of the eight compiled intent
regexes on the normalized C7 text `where is the library`: the
navigation pattern matches `where is` (its `where\s+is` alternative at
position 0), the campus-info pattern matches `where is the` (its
`(?:what|where)\s+(?:is|are)\s+the` alternative at position 0), and no
other pattern matches. -/
def searchC7 : SearchFn := fun name t =>
  if t = ("where is the library".toList) then
    if name = "navigation" then some ("where is".toList)
    else if name = "campus_info" then some ("where is the".toList)
    else none
  else none

/-! ## Helper lemmas -/

/-- Conflict resolution never leaves both `location` and
`department_name` present. -/
theorem resolve_excl (i : String) (e : Entities) :
    ¬((resolveEntityConflicts i e).location.isSome ∧
      (resolveEntityConflicts i e).department_name.isSome) := by
  unfold resolveEntityConflicts
  split
  · rename_i h
    rcases h with h | h <;> simp [h]
  · split
    · simp
    · split
      · simp
      · split <;> simp

/-! ## The claims -/

/-- C5: every transition outside the fixed table makes the guarded
wrapper return `false` and leave the state unchanged (the wrapper
catches the invalid-transition exception), while `wake_up` from `idle`
succeeds and moves to `listening`; in particular `hear_input`,
`generate_response` and `finish_response` from `idle` all fail in
place. -/
theorem safeTransition_guard :
    (∀ (s : RState) (t : RTrans), transTable s t = none →
      safeTransition s t = (false, s)) ∧
    safeTransition RState.idle RTrans.wake_up = (true, RState.listening) ∧
    safeTransition RState.idle RTrans.hear_input = (false, RState.idle) ∧
    safeTransition RState.idle RTrans.generate_response = (false, RState.idle) ∧
    safeTransition RState.idle RTrans.finish_response = (false, RState.idle) := by
  refine ⟨?_, by decide, by decide, by decide, by decide⟩
  intro s t h
  simp [safeTransition, h]

/-- Witness for C5: the `timeout` transition is not allowed from `idle`
and leaves the machine in `idle`. -/
theorem safeTransition_guard_witness :
    safeTransition RState.idle RTrans.timeout = (false, RState.idle) :=
  safeTransition_guard.1 RState.idle RTrans.timeout rfl

/-- C10: conflict resolution is frame-bounded — it always preserves the
`faculty_name` and `faculty_score` entries, and when `location` and
`department_name` are not both present it returns the entity map
completely unchanged. -/
theorem resolve_frame :
    ∀ (i : String) (e : Entities),
      (resolveEntityConflicts i e).faculty_name = e.faculty_name ∧
      (resolveEntityConflicts i e).faculty_score = e.faculty_score ∧
      (¬(e.location.isSome ∧ e.department_name.isSome) →
        resolveEntityConflicts i e = e) := by
  intro i e
  refine ⟨?_, ?_, ?_⟩
  · unfold resolveEntityConflicts
    split
    · rfl
    · split
      · rfl
      · split
        · rfl
        · split <;> rfl
  · unfold resolveEntityConflicts
    split
    · rfl
    · split
      · rfl
      · split
        · rfl
        · split <;> rfl
  · intro h
    unfold resolveEntityConflicts
    split
    · rfl
    · rename_i hb
      push_neg at hb
      exact absurd ⟨Option.isSome_iff_ne_none.mpr hb.1,
        Option.isSome_iff_ne_none.mpr hb.2⟩ h

/-- Witness for C10: a concrete map with only a faculty entry passes
through conflict resolution unchanged. -/
theorem resolve_frame_witness :
    resolveEntityConflicts "campus_info"
      { faculty_name := some ("Dr. Test".toList), faculty_score := some 90 } =
      { faculty_name := some ("Dr. Test".toList), faculty_score := some 90 } :=
  (resolve_frame "campus_info"
    { faculty_name := some ("Dr. Test".toList), faculty_score := some 90 }).2.2
    (by decide)

/-- C3: when both `location` and `department_name` are present,
conflict resolution removes exactly one of them together with its score
key — the department for a `navigation` intent, the location for a
`department_info` intent, and otherwise the lower-scoring one, the
department on a tie; consequently a `ParsedIntent` returned by `parse`
with a `navigation` or `department_info` intent never carries both. -/
theorem resolve_conflicts_spec :
    (∀ (i : String) (e : Entities),
      e.location.isSome → e.department_name.isSome →
      (i = "navigation" →
        resolveEntityConflicts i e =
          { e with department_name := none, department_score := none }) ∧
      (i ≠ "navigation" → i = "department_info" →
        resolveEntityConflicts i e =
          { e with location := none, location_score := none }) ∧
      (i ≠ "navigation" → i ≠ "department_info" →
        (e.department_score.getD 0 ≤ e.location_score.getD 0 →
          resolveEntityConflicts i e =
            { e with department_name := none, department_score := none }) ∧
        (e.location_score.getD 0 < e.department_score.getD 0 →
          resolveEntityConflicts i e =
            { e with location := none, location_score := none }))) ∧
    (∀ (cfg : ParserCfg) (sf : SearchFn) (text : Str),
      (parse cfg sf text).intent = "navigation" ∨
        (parse cfg sf text).intent = "department_info" →
      ¬((parse cfg sf text).entities.location.isSome ∧
        (parse cfg sf text).entities.department_name.isSome)) := by
  constructor
  · intro i e hl hd
    have hl2 : ¬(e.location = none ∨ e.department_name = none) := by
      rcases hl : e.location with _ | v
      · simp [hl] at *
      · rcases hd : e.department_name with _ | w
        · simp [hd] at *
        · simp [hl, hd]
    refine ⟨?_, ?_, ?_⟩
    · intro hnav
      rw [resolveEntityConflicts, if_neg hl2, if_pos hnav]
    · intro hnav hdep
      rw [resolveEntityConflicts, if_neg hl2, if_neg hnav, if_pos hdep]
    · intro hnav hdep
      constructor
      · intro hle
        rw [resolveEntityConflicts, if_neg hl2, if_neg hnav, if_neg hdep,
          if_pos hle]
      · intro hlt
        rw [resolveEntityConflicts, if_neg hl2, if_neg hnav, if_neg hdep,
          if_neg (by omega)]
  · intro cfg sf text _
    unfold parse
    dsimp only
    split
    · simp
    · exact resolve_excl _ _

/-- Witness for C3: a concrete conflict between a location and a
department under a `campus_info` intent is resolved by dropping the
lower-scoring location, and a parse of concrete input never returns
both keys. -/
theorem resolve_conflicts_spec_witness :
    resolveEntityConflicts "campus_info"
      { location := some ("Main Gate".toList), location_score := some 70,
        department_name := some ("Civil".toList), department_score := some 90 } =
      { location := none, location_score := none,
        department_name := some ("Civil".toList), department_score := some 90 } :=
  (((resolve_conflicts_spec.1 "campus_info"
      { location := some ("Main Gate".toList), location_score := some 70,
        department_name := some ("Civil".toList), department_score := some 90 }
      (by decide) (by decide)).2.2 (by decide) (by decide)).2 (by decide))

/-- C8 (amended): `raw_text` of every parse result is the input text
stripped of leading and trailing whitespace — so it never reflects the
corrections, phonetic substitutions or abbreviation expansions of the
normalizer, but it is not literally the original input when that input
carries surrounding whitespace. -/
theorem parse_raw_text :
    ∀ (cfg : ParserCfg) (sf : SearchFn) (text : Str),
      (parse cfg sf text).raw_text = pyStrip text := by
  intro cfg sf text
  unfold parse
  dsimp only
  split <;> rfl

/-- C8 counterexample: for an input with leading whitespace the parse
result's `raw_text` is the stripped text, not the original input
(`IntentParser.parse` strips before storing `raw_text`). -/
theorem parse_raw_text_counterexample :
    (parse cfgEmpty sfNone (' ' :: ("xyzzy foobar".toList))).raw_text =
      ("xyzzy foobar".toList) ∧
    (parse cfgEmpty sfNone (' ' :: ("xyzzy foobar".toList))).raw_text ≠
      ' ' :: ("xyzzy foobar".toList) := by
  constructor
  · unfold parse
    decide
  · unfold parse
    decide

/-- C6: when the pattern scoring yields `unknown` but entity extraction
found an entity, `parse` overrides the result in the fixed priority
order location → navigation, faculty → faculty_info,
department → department_info, with confidence `score / 100`.  (The
hypothesis `1 ≤ fuzzy_threshold` confines the statement to positive
thresholds — the configured value is 70 — where the `Option`-valued
entity model coincides with the Python dict, since a zero threshold
would let a scoreless `None` candidate into the dict.) -/
theorem parse_entity_fallback :
    ∀ (cfg : ParserCfg) (sf : SearchFn) (text : Str),
      1 ≤ cfg.fuzzy_threshold →
      pyStrip text ≠ [] →
      (scoreIntents sf (preprocessText (pyStrip text))).1 = "unknown" →
      ((extractEntities cfg (preprocessText (pyStrip text))).location.isSome →
        (parse cfg sf text).intent = "navigation" ∧
        (parse cfg sf text).confidence =
          (((extractEntities cfg (preprocessText (pyStrip text))).location_score.getD 0
            : Nat) : ℚ) / 100) ∧
      ((extractEntities cfg (preprocessText (pyStrip text))).location = none →
       (extractEntities cfg (preprocessText (pyStrip text))).faculty_name.isSome →
        (parse cfg sf text).intent = "faculty_info" ∧
        (parse cfg sf text).confidence =
          (((extractEntities cfg (preprocessText (pyStrip text))).faculty_score.getD 0
            : Nat) : ℚ) / 100) ∧
      ((extractEntities cfg (preprocessText (pyStrip text))).location = none →
       (extractEntities cfg (preprocessText (pyStrip text))).faculty_name = none →
       (extractEntities cfg (preprocessText (pyStrip text))).department_name.isSome →
        (parse cfg sf text).intent = "department_info" ∧
        (parse cfg sf text).confidence =
          (((extractEntities cfg (preprocessText (pyStrip text))).department_score.getD 0
            : Nat) : ℚ) / 100) := by
  intro cfg sf text _hthr hne hu
  have hni : (pyStrip text).isEmpty = false := by
    simp [List.isEmpty_iff, hne]
  refine ⟨?_, ?_, ?_⟩
  · intro hl
    unfold parse
    dsimp only
    rw [hni]
    simp only [Bool.false_eq_true, if_false]
    constructor <;>
      simp [inferFromEntities, hu, Entities.nonempty, hl]
  · intro hl hf
    unfold parse
    dsimp only
    rw [hni]
    simp only [Bool.false_eq_true, if_false]
    constructor <;>
      simp [inferFromEntities, hu, Entities.nonempty, hl, hf]
  · intro hl hf hd
    unfold parse
    dsimp only
    rw [hni]
    simp only [Bool.false_eq_true, if_false]
    constructor <;>
      simp [inferFromEntities, hu, Entities.nonempty, hl, hf, hd]

set_option maxRecDepth 8192 in
/-- Witness for C6: on the input `gate please` (no intent pattern
matches, the location candidate `gate` is an exact substring) the parse
result is overridden to `navigation` with confidence `100/100 = 1`. -/
theorem parse_entity_fallback_witness :
    (parse cfgGate sfNone ("gate please".toList)).intent = "navigation" ∧
    (parse cfgGate sfNone ("gate please".toList)).confidence = 1 := by
  have h := (parse_entity_fallback cfgGate sfNone ("gate please".toList)
    (by decide) (by decide) (by decide)).1 (by decide)
  have hs : (extractEntities cfgGate
      (preprocessText (pyStrip ("gate please".toList)))).location_score =
      some 100 := by decide
  refine ⟨h.1, ?_⟩
  rw [h.2, hs]
  norm_num

/-- C2: when the second recognition pass actually runs (feature enabled,
non-chit-chat intent, some entity score below the strong threshold, a
non-empty grammar, and a non-empty second transcript), the re-parsed
entities replace the original ones exactly when the best new entity
score strictly exceeds the best originally-weak score (original scores
at the ceiling 100 are excluded); on replacement the returned
`ParsedIntent` keeps the original intent, confidence and raw text, and
otherwise — in particular whenever the best new score is lower — the
original `ParsedIntent` comes back unchanged.  (`strongThr ≤ 100`
confines the statement to thresholds — the configured value is 80 —
for which the weak-score list is provably non-empty here, matching the
source's bare `max`.) -/
theorem rerecognition_merge :
    ∀ (strongThr : Nat) (cfg : ParserCfg) (sf : SearchFn)
      (recognize : List Str → Option Str) (pi : ParsedIntent) (gtext : Str),
      ¬ pi.intent ∈ ["greeting", "farewell", "help", "unknown"] →
      ¬ (entityScoreList pi.entities).all (fun s => strongThr ≤ s) →
      strongThr ≤ 100 →
      getEntityGrammar cfg pi.intent ≠ [] →
      recognize (getEntityGrammar cfg pi.intent) = some gtext →
      gtext ≠ [] →
      (natMax (weakScores pi.entities) <
          natMax (newScoreList (parse cfg sf gtext).entities) →
        tryGrammarRerecognition true strongThr cfg sf recognize pi =
          { intent := pi.intent, confidence := pi.confidence,
            entities := (parse cfg sf gtext).entities, raw_text := pi.raw_text }) ∧
      (¬ natMax (weakScores pi.entities) <
          natMax (newScoreList (parse cfg sf gtext).entities) →
        tryGrammarRerecognition true strongThr cfg sf recognize pi = pi) := by
  intro strongThr cfg sf recognize pi gtext hint hweak _hthr hg hr hne
  have hg2 : (getEntityGrammar cfg pi.intent).isEmpty = false := by
    simp [List.isEmpty_iff, hg]
  have hne2 : gtext.isEmpty = false := by
    simp [List.isEmpty_iff, hne]
  have key : tryGrammarRerecognition true strongThr cfg sf recognize pi =
      if natMax (weakScores pi.entities) <
          natMax (newScoreList (parse cfg sf gtext).entities) then
        { intent := pi.intent, confidence := pi.confidence,
          entities := (parse cfg sf gtext).entities, raw_text := pi.raw_text }
      else pi := by
    unfold tryGrammarRerecognition
    dsimp only
    rw [if_neg (by simp), if_neg hint, if_neg hweak]
    rw [if_neg (by simp [hg2])]
    simp only [hr, hne2, Bool.false_eq_true, if_false]
  constructor
  · intro himp
    rw [key, if_pos himp]
  · intro himp
    rw [key, if_neg himp]

set_option maxRecDepth 8192 in
/-- Witness for C2: re-recognition of the weak result `piW` against the
transcript `gate please` (whose re-parse scores the location at 100)
replaces the entities while keeping the original intent, confidence and
raw text. -/
theorem rerecognition_merge_witness :
    tryGrammarRerecognition GRAMMAR_RERECOGNITION_ENABLED
      ENTITY_STRONG_MATCH_THRESHOLD cfgGate sfNone
      (fun _ => some ("gate please".toList)) piW =
      { intent := "navigation", confidence := 1/2,
        entities := (parse cfgGate sfNone ("gate please".toList)).entities,
        raw_text := ("go to the gate".toList) } := by
  have h := (rerecognition_merge ENTITY_STRONG_MATCH_THRESHOLD cfgGate sfNone
      (fun _ => some ("gate please".toList)) piW ("gate please".toList)
      (by decide) (by decide) (by decide) (by decide) rfl (by decide)).1
      (by decide)
  exact h

/-- The first-accepted-rule characterization of the per-word phonetic
loop, for an arbitrary rule list. -/
theorem phonWordGo_spec (w : Str) : ∀ (l : List PhonRule),
    phonWordGo w l = w ∨
    ∃ i, ∃ h : i < l.length,
      (lowerStr (subRule (l.get ⟨i, h⟩) w) ≠ lowerStr w ∧
       lowerStr (subRule (l.get ⟨i, h⟩) w) ∈ KNOWN_VOCABULARY) ∧
      phonWordGo w l = subRule (l.get ⟨i, h⟩) w ∧
      ∀ j, ∀ hj : j < l.length, j < i →
        ¬(lowerStr (subRule (l.get ⟨j, hj⟩) w) ≠ lowerStr w ∧
          lowerStr (subRule (l.get ⟨j, hj⟩) w) ∈ KNOWN_VOCABULARY) := by
  intro l
  induction l with
  | nil => exact Or.inl rfl
  | cons r rs ih =>
      by_cases hacc : lowerStr (subRule r w) ≠ lowerStr w ∧
          lowerStr (subRule r w) ∈ KNOWN_VOCABULARY
      · refine Or.inr ⟨0, Nat.succ_pos _, ?_, ?_, ?_⟩
        · simpa using hacc
        · simp only [phonWordGo, if_pos hacc, List.get]
        · intro j hj hji
          omega
      · have hstep : phonWordGo w (r :: rs) = phonWordGo w rs := by
          simp only [phonWordGo, if_neg hacc]
        rcases ih with h | ⟨i, hi, hok, heq, hmin⟩
        · exact Or.inl (hstep.trans h)
        · refine Or.inr ⟨i + 1, Nat.succ_lt_succ hi, ?_, ?_, ?_⟩
          · simpa using hok
          · simpa [hstep] using heq
          · intro j hj hji
            cases j with
            | zero => simpa using hacc
            | succ j2 =>
                have := hmin j2 (Nat.lt_of_succ_lt_succ hj)
                  (Nat.lt_of_succ_lt_succ hji)
                simpa using this

/-- C9: each word is either left unchanged by the phonetic stage or
replaced by the output of the first rule whose result, lower-cased,
differs from the word and belongs to the `KNOWN_VOCABULARY` guard set;
hence every changed word lowers to a guard-set member, the stage acts on
the whitespace words of the text independently, and in particular
`very` is never corrupted to `wery`. -/
theorem phonetic_guard :
    (∀ w : Str,
      phonWord w = w ∨
      ∃ i, ∃ h : i < PHONETIC_SUBSTITUTIONS.length,
        (lowerStr (subRule (PHONETIC_SUBSTITUTIONS.get ⟨i, h⟩) w) ≠ lowerStr w ∧
         lowerStr (subRule (PHONETIC_SUBSTITUTIONS.get ⟨i, h⟩) w) ∈
           KNOWN_VOCABULARY) ∧
        phonWord w = subRule (PHONETIC_SUBSTITUTIONS.get ⟨i, h⟩) w ∧
        ∀ j, ∀ hj : j < PHONETIC_SUBSTITUTIONS.length, j < i →
          ¬(lowerStr (subRule (PHONETIC_SUBSTITUTIONS.get ⟨j, hj⟩) w) ≠
              lowerStr w ∧
            lowerStr (subRule (PHONETIC_SUBSTITUTIONS.get ⟨j, hj⟩) w) ∈
              KNOWN_VOCABULARY)) ∧
    (∀ w : Str, phonWord w ≠ w → lowerStr (phonWord w) ∈ KNOWN_VOCABULARY) ∧
    (∀ t : Str, applyPhoneticSubs t = joinSpace ((pySplit t).map phonWord)) ∧
    phonWord ("very".toList) = ("very".toList) := by
  have main := fun w => phonWordGo_spec w PHONETIC_SUBSTITUTIONS
  refine ⟨main, ?_, fun _ => rfl, by decide⟩
  intro w hne
  rcases main w with h | ⟨i, hi, hok, heq, _⟩
  · exact absurd h hne
  · rw [show phonWord w = phonWordGo w PHONETIC_SUBSTITUTIONS from rfl, heq]
    exact hok.2

/-- Witness for C9: the word `vhere` is changed by the stage and its
result lowers to a vocabulary member (it becomes `where`). -/
theorem phonetic_guard_witness :
    lowerStr (phonWord ("vhere".toList)) ∈ KNOWN_VOCABULARY :=
  phonetic_guard.2.1 ("vhere".toList) (by decide)

/-- The scoring fold leaves the incumbent in place when nothing
matches. -/
theorem scoreGo_none (φ : String → Option ℚ) :
    ∀ (l : List String) (best : String × ℚ),
      (∀ n ∈ l, φ n = none) → scoreGo φ l best = best := by
  intro l
  induction l with
  | nil => intro best _; rfl
  | cons n ns ih =>
      intro best h
      have hn : φ n = none := h n (List.mem_cons_self n ns)
      have hns : ∀ m ∈ ns, φ m = none := fun m hm => h m (List.mem_cons_of_mem n hm)
      simp only [scoreGo, hn]
      exact ih best hns

/-- The strictly-better-wins characterization of the scoring fold: the
fold either keeps the incumbent (and then every match scores no higher
than it), or returns the first listed pattern whose confidence strictly
exceeds the incumbent and every earlier match, and is not exceeded by
any match. -/
theorem scoreGo_spec (φ : String → Option ℚ) :
    ∀ (l : List String) (best : String × ℚ),
      (scoreGo φ l best = best ∧
        ∀ i, ∀ h : i < l.length, ∀ c, φ (l.get ⟨i, h⟩) = some c → c ≤ best.2) ∨
      (∃ i, ∃ h : i < l.length, ∃ c,
        φ (l.get ⟨i, h⟩) = some c ∧
        scoreGo φ l best = (l.get ⟨i, h⟩, c) ∧
        best.2 < c ∧
        (∀ j, ∀ hj : j < l.length, j < i →
          ∀ d, φ (l.get ⟨j, hj⟩) = some d → d < c) ∧
        (∀ j, ∀ hj : j < l.length,
          ∀ d, φ (l.get ⟨j, hj⟩) = some d → d ≤ c)) := by
  intro l
  induction l with
  | nil =>
      intro best
      exact Or.inl ⟨rfl, fun i h => absurd h (by simp)⟩
  | cons n ns ih =>
      intro best
      cases hn : φ n with
      | none =>
          have hstep : scoreGo φ (n :: ns) best = scoreGo φ ns best := by
            simp only [scoreGo, hn]
          rcases ih best with ⟨heq, hle⟩ | ⟨i, hi, c, hc, heq, hlt, hmin, hmax⟩
          · refine Or.inl ⟨hstep.trans heq, ?_⟩
            intro i h c hc
            cases i with
            | zero => rw [List.get] at hc; rw [hn] at hc; cases hc
            | succ i2 => exact hle i2 (Nat.lt_of_succ_lt_succ h) c hc
          · refine Or.inr ⟨i + 1, Nat.succ_lt_succ hi, c, hc, hstep.trans heq,
              hlt, ?_, ?_⟩
            · intro j hj hji d hd
              cases j with
              | zero => rw [List.get] at hd; rw [hn] at hd; cases hd
              | succ j2 =>
                  exact hmin j2 (Nat.lt_of_succ_lt_succ hj)
                    (Nat.lt_of_succ_lt_succ hji) d hd
            · intro j hj d hd
              cases j with
              | zero => rw [List.get] at hd; rw [hn] at hd; cases hd
              | succ j2 => exact hmax j2 (Nat.lt_of_succ_lt_succ hj) d hd
      | some c0 =>
          by_cases hgt : best.2 < c0
          · have hstep : scoreGo φ (n :: ns) best = scoreGo φ ns (n, c0) := by
              simp only [scoreGo, hn, if_pos hgt]
            rcases ih (n, c0) with ⟨heq, hle⟩ | ⟨i, hi, c, hc, heq, hlt, hmin, hmax⟩
            · refine Or.inr ⟨0, Nat.succ_pos _, c0, hn, hstep.trans heq, hgt,
                ?_, ?_⟩
              · intro j hj hji; omega
              · intro j hj d hd
                cases j with
                | zero =>
                    rw [List.get] at hd; rw [hn] at hd
                    cases hd; exact le_refl _
                | succ j2 => exact hle j2 (Nat.lt_of_succ_lt_succ hj) d hd
            · refine Or.inr ⟨i + 1, Nat.succ_lt_succ hi, c, hc, hstep.trans heq,
                lt_trans hgt hlt, ?_, ?_⟩
              · intro j hj hji d hd
                cases j with
                | zero =>
                    rw [List.get] at hd; rw [hn] at hd
                    cases hd; exact hlt
                | succ j2 =>
                    exact hmin j2 (Nat.lt_of_succ_lt_succ hj)
                      (Nat.lt_of_succ_lt_succ hji) d hd
              · intro j hj d hd
                cases j with
                | zero =>
                    rw [List.get] at hd; rw [hn] at hd
                    cases hd; exact le_of_lt hlt
                | succ j2 => exact hmax j2 (Nat.lt_of_succ_lt_succ hj) d hd
          · have hstep : scoreGo φ (n :: ns) best = scoreGo φ ns best := by
              simp only [scoreGo, hn, if_neg hgt]
            have hc0 : c0 ≤ best.2 := le_of_not_lt hgt
            rcases ih best with ⟨heq, hle⟩ | ⟨i, hi, c, hc, heq, hlt, hmin, hmax⟩
            · refine Or.inl ⟨hstep.trans heq, ?_⟩
              intro i h c hc
              cases i with
              | zero =>
                  rw [List.get] at hc; rw [hn] at hc
                  cases hc; exact hc0
              | succ i2 => exact hle i2 (Nat.lt_of_succ_lt_succ h) c hc
            · refine Or.inr ⟨i + 1, Nat.succ_lt_succ hi, c, hc, hstep.trans heq,
                hlt, ?_, ?_⟩
              · intro j hj hji d hd
                cases j with
                | zero =>
                    rw [List.get] at hd; rw [hn] at hd
                    cases hd; exact lt_of_le_of_lt hc0 hlt
                | succ j2 =>
                    exact hmin j2 (Nat.lt_of_succ_lt_succ hj)
                      (Nat.lt_of_succ_lt_succ hji) d hd
              · intro j hj d hd
                cases j with
                | zero =>
                    rw [List.get] at hd; rw [hn] at hd
                    cases hd; exact le_of_lt (lt_of_le_of_lt hc0 hlt)
                | succ j2 => exact hmax j2 (Nat.lt_of_succ_lt_succ hj) d hd

/-- Every intent weight the scorer can look up is positive. -/
theorem intentWeight_pos (n : String) : 0 < intentWeight n := by
  unfold intentWeight
  repeat' split
  all_goals norm_num

/-- On non-empty text, every confidence the scorer assigns to a
matching pattern is positive. -/
theorem confOf_pos (sf : SearchFn) (text : Str) (n : String) (c : ℚ)
    (hc : confOf sf text n = some c) : 0 < c := by
  unfold confOf at hc
  cases hm : sf n text with
  | none => rw [hm] at hc; cases hc
  | some m =>
      rw [hm] at hc
      simp only [Option.map_some', Option.some.injEq] at hc
      have h1 : (0 : ℚ) ≤ ((m.length : ℚ) / (text.length : ℚ)) := by positivity
      have h2 : (0 : ℚ) < 7/10 + 3/10 * ((m.length : ℚ) / (text.length : ℚ)) := by
        nlinarith
      rw [← hc]
      exact mul_pos (intentWeight_pos n) h2

/-- C1: on non-empty normalized text the classifier evaluates every
pattern of the fixed list, assigning each match the confidence
`base_weight * (0.7 + 0.3 * span_ratio)` (see `confOf`); if nothing
matches it returns `("unknown", 0)`, and otherwise it returns the
earliest-listed pattern of strictly highest confidence: every
earlier-listed match scores strictly lower (the first strict `>`
comparison keeps the incumbent on exact ties) and no match scores
higher. -/
theorem intent_scoring_spec :
    ∀ (sf : SearchFn) (text : Str), text ≠ [] →
      ((∀ n ∈ INTENT_PATTERN_NAMES, sf n text = none) →
        scoreIntents sf text = ("unknown", 0)) ∧
      (∀ n0 ∈ INTENT_PATTERN_NAMES, (sf n0 text).isSome →
        ∃ i, ∃ h : i < INTENT_PATTERN_NAMES.length, ∃ c,
          confOf sf text (INTENT_PATTERN_NAMES.get ⟨i, h⟩) = some c ∧
          scoreIntents sf text = (INTENT_PATTERN_NAMES.get ⟨i, h⟩, c) ∧
          0 < c ∧
          (∀ j, ∀ hj : j < INTENT_PATTERN_NAMES.length, j < i →
            ∀ d, confOf sf text (INTENT_PATTERN_NAMES.get ⟨j, hj⟩) = some d →
              d < c) ∧
          (∀ j, ∀ hj : j < INTENT_PATTERN_NAMES.length,
            ∀ d, confOf sf text (INTENT_PATTERN_NAMES.get ⟨j, hj⟩) = some d →
              d ≤ c)) := by
  intro sf text hne
  have hlen : ¬ text.length = 0 := by
    cases text with
    | nil => exact absurd rfl hne
    | cons a l => simp
  have hsc : scoreIntents sf text =
      scoreGo (confOf sf text) INTENT_PATTERN_NAMES ("unknown", 0) := by
    unfold scoreIntents
    rw [if_neg hlen]
  constructor
  · intro hnone
    rw [hsc]
    exact scoreGo_none _ _ _ fun n hn => by
      unfold confOf
      rw [hnone n hn]
      rfl
  · intro n0 hmem hsome
    rcases scoreGo_spec (confOf sf text) INTENT_PATTERN_NAMES ("unknown", 0)
      with ⟨_, hle⟩ | ⟨i, hi, c, hc, heq, _, hmin, hmax⟩
    · exfalso
      rcases List.mem_iff_get.mp hmem with ⟨k, hk⟩
      rcases Option.isSome_iff_exists.mp hsome with ⟨m, hm⟩
      have hc2 : ∃ c2, confOf sf text n0 = some c2 := by
        unfold confOf
        rw [hm]
        exact ⟨_, rfl⟩
      rcases hc2 with ⟨c2, hc2⟩
      have hpos := confOf_pos sf text n0 c2 hc2
      have hk2 : confOf sf text (INTENT_PATTERN_NAMES.get k) = some c2 := by
        rw [hk]
        exact hc2
      have := hle k.1 k.2 c2 hk2
      simp only at this
      exact absurd (lt_of_lt_of_le hpos this) (by norm_num)
    · exact ⟨i, hi, c, hc, hsc.trans heq, confOf_pos sf text _ c hc, hmin, hmax⟩

/-- Witness for C1: on the nonsense text `xyzzy foobar` no pattern
matches and the classifier returns `("unknown", 0)`. -/
theorem intent_scoring_spec_witness :
    scoreIntents sfNone ("xyzzy foobar".toList) = ("unknown", 0) :=
  (intent_scoring_spec sfNone ("xyzzy foobar".toList) (by decide)).1
    (fun _ _ => rfl)

/-- No character with code point 97–122 is Python whitespace. -/
theorem isPySpace_ofNat_false (n : Nat) (h1 : 97 ≤ n) (h2 : n ≤ 122) :
    isPySpace (Char.ofNat n) = false := by
  interval_cases n <;> decide

/-- No character with code point at least 65 is Python whitespace. -/
theorem isPySpace_ge65_false (c : Char) (h1 : 65 ≤ c.toNat) :
    isPySpace c = false := by
  have h2 : c ≠ ' ' := fun he => by rw [he] at h1; exact absurd h1 (by decide)
  have h3 : c ≠ Char.ofNat 9 := fun he => by
    rw [he] at h1; exact absurd h1 (by decide)
  have h4 : c ≠ Char.ofNat 10 := fun he => by
    rw [he] at h1; exact absurd h1 (by decide)
  have h5 : c ≠ Char.ofNat 13 := fun he => by
    rw [he] at h1; exact absurd h1 (by decide)
  have h6 : c ≠ Char.ofNat 11 := fun he => by
    rw [he] at h1; exact absurd h1 (by decide)
  have h7 : c ≠ Char.ofNat 12 := fun he => by
    rw [he] at h1; exact absurd h1 (by decide)
  simp [isPySpace, h2, h3, h4, h5, h6, h7]

/-- Lower-casing does not change whitespace-ness. -/
theorem isPySpace_lowerC (c : Char) : isPySpace (lowerC c) = isPySpace c := by
  unfold lowerC
  by_cases h : (65 ≤ c.toNat && c.toNat ≤ 90) = true
  · have hn : 65 ≤ c.toNat ∧ c.toNat ≤ 90 := by simpa using h
    rw [if_pos h, isPySpace_ofNat_false (c.toNat + 32) (by omega) (by omega),
      isPySpace_ge65_false c hn.1]
  · rw [if_neg h]

/-- Word counting is invariant under lower-casing. -/
theorem wc_lowerStr (l : Str) : ∀ b, wc (lowerStr l) b = wc l b := by
  induction l with
  | nil => intro b; rfl
  | cons c r ih =>
      intro b
      show wc (lowerC c :: lowerStr r) b = wc (c :: r) b
      unfold wc
      rw [isPySpace_lowerC]
      by_cases h : isPySpace c = true
      · rw [if_pos h, if_pos h, ih]
      · rw [if_neg h, if_neg h]
        cases b <;> simp [ih]

/-- An all-whitespace string has no words. -/
theorem wc_all_ws (l : Str) (h : ∀ c ∈ l, isPySpace c = true) :
    ∀ b, wc l b = 0 := by
  induction l with
  | nil => intro b; rfl
  | cons c r ih =>
      intro b
      unfold wc
      rw [if_pos (h c (List.mem_cons_self c r))]
      exact ih (fun d hd => h d (List.mem_cons_of_mem c hd)) false

/-- Appending trailing whitespace does not change the word count. -/
theorem wc_append_ws (y z : Str) (hz : ∀ c ∈ z, isPySpace c = true) :
    ∀ b, wc (y ++ z) b = wc y b := by
  induction y with
  | nil => intro b; exact wc_all_ws z hz b
  | cons c r ih =>
      intro b
      show wc (c :: (r ++ z)) b = wc (c :: r) b
      unfold wc
      by_cases h : isPySpace c = true
      · rw [if_pos h, if_pos h, ih]
      · rw [if_neg h, if_neg h]
        cases b <;> simp [ih]

/-- Dropping leading whitespace does not change the word count. -/
theorem wc_dropWS (l : Str) : wc (dropWS l) false = wc l false := by
  induction l with
  | nil => rfl
  | cons c r ih =>
      by_cases h : isPySpace c = true
      · have h1 : dropWS (c :: r) = dropWS r := by
          rw [show dropWS (c :: r) =
            if isPySpace c = true then dropWS r else c :: r from rfl, if_pos h]
        have h2 : wc (c :: r) false = wc r false := by
          rw [show wc (c :: r) false =
            if isPySpace c = true then wc r false
            else wc r true + 1 from rfl, if_pos h]
        rw [h1, h2, ih]
      · have h1 : dropWS (c :: r) = c :: r := by
          rw [show dropWS (c :: r) =
            if isPySpace c = true then dropWS r else c :: r from rfl, if_neg h]
        rw [h1]

/-- `dropWS` removes an all-whitespace prefix. -/
theorem dropWS_decomp (l : Str) :
    ∃ w, l = w ++ dropWS l ∧ ∀ c ∈ w, isPySpace c = true := by
  induction l with
  | nil => exact ⟨[], rfl, fun c hc => absurd hc (List.not_mem_nil c)⟩
  | cons c r ih =>
      by_cases h : isPySpace c = true
      · rcases ih with ⟨w, hw, hws⟩
        refine ⟨c :: w, ?_, ?_⟩
        · have hdr : dropWS (c :: r) = dropWS r := by
            rw [show dropWS (c :: r) =
              if isPySpace c = true then dropWS r else c :: r from rfl, if_pos h]
          rw [hdr]
          show c :: r = c :: (w ++ dropWS r)
          rw [← hw]
        · intro d hd
          rcases List.mem_cons.mp hd with h1 | h1
          · rw [h1]; exact h
          · exact hws d h1
      · refine ⟨[], ?_, fun c hc => absurd hc (List.not_mem_nil c)⟩
        show c :: r = dropWS (c :: r)
        rw [show dropWS (c :: r) =
          if isPySpace c = true then dropWS r else c :: r from rfl, if_neg h]

/-- Stripping does not change the word count. -/
theorem wc_pyStrip (l : Str) : wc (pyStrip l) false = wc l false := by
  have h1 : wc (dropWS l) false = wc l false := wc_dropWS l
  rcases dropWS_decomp (dropWS l).reverse with ⟨w, hw, hws⟩
  have hm : dropWS l = (dropWS ((dropWS l).reverse)).reverse ++ w.reverse := by
    have h := congrArg List.reverse hw
    rw [List.reverse_reverse, List.reverse_append] at h
    exact h
  have hwr : ∀ c ∈ w.reverse, isPySpace c = true := by
    intro c hc
    exact hws c (List.mem_reverse.mp hc)
  have h2 : wc (dropWS l) false =
      wc ((dropWS ((dropWS l).reverse)).reverse) false := by
    conv_lhs => rw [hm]
    exact wc_append_ws _ _ hwr false
  rw [show pyStrip l = (dropWS ((dropWS l).reverse)).reverse from rfl]
  rw [← h2, h1]

/-- Inside a word, closing it costs at most one extra word. -/
theorem wc_false_le_true_succ (l : Str) : wc l false ≤ wc l true + 1 := by
  induction l with
  | nil => simp [wc]
  | cons c r ih =>
      by_cases h : isPySpace c = true
      · rw [show wc (c :: r) false = if isPySpace c = true then wc r false
            else wc r true + 1 from rfl, if_pos h,
          show wc (c :: r) true = if isPySpace c = true then wc r false
            else wc r true from rfl, if_pos h]
        omega
      · rw [show wc (c :: r) false = if isPySpace c = true then wc r false
            else wc r true + 1 from rfl, if_neg h,
          show wc (c :: r) true = if isPySpace c = true then wc r false
            else wc r true from rfl, if_neg h]

/-- Prepending text cannot decrease the word count (up to the open-word
correction). -/
theorem wc_prepend (y : Str) :
    ∀ (x : Str) (b : Bool), wc y false ≤ wc (x ++ y) b + (if b then 1 else 0) := by
  intro x
  induction x with
  | nil =>
      intro b
      cases b
      · simp
      · simpa using wc_false_le_true_succ y
  | cons c r ih =>
      intro b
      by_cases h : isPySpace c = true
      · rw [List.cons_append, show wc (c :: (r ++ y)) b =
            if isPySpace c = true then wc (r ++ y) false
            else if b = true then wc (r ++ y) true
            else wc (r ++ y) true + 1 from rfl, if_pos h]
        have h0 := ih false
        have h0b : wc y false ≤ wc (r ++ y) false := by simpa using h0
        calc wc y false ≤ wc (r ++ y) false := h0b
          _ ≤ wc (r ++ y) false + (if b then 1 else 0) := Nat.le_add_right _ _
      · rw [List.cons_append, show wc (c :: (r ++ y)) b =
            if isPySpace c = true then wc (r ++ y) false
            else if b = true then wc (r ++ y) true
            else wc (r ++ y) true + 1 from rfl, if_neg h]
        have h1 := ih true
        have h1b : wc y false ≤ wc (r ++ y) true + 1 := by simpa using h1
        cases b
        · simpa using h1b
        · simpa using h1b

/-- Appending text cannot decrease the word count. -/
theorem wc_append_right (y z : Str) : ∀ b, wc y b ≤ wc (y ++ z) b := by
  induction y with
  | nil => intro b; simp [wc]
  | cons c r ih =>
      intro b
      rw [List.cons_append, show wc (c :: (r ++ z)) b =
          if isPySpace c = true then wc (r ++ z) false
          else if b = true then wc (r ++ z) true
          else wc (r ++ z) true + 1 from rfl,
        show wc (c :: r) b =
          if isPySpace c = true then wc r false
          else if b = true then wc r true
          else wc r true + 1 from rfl]
      by_cases h : isPySpace c = true
      · rw [if_pos h, if_pos h]; exact ih false
      · rw [if_neg h, if_neg h]
        cases b
        · simp only [Bool.false_eq_true, if_false]
          have := ih true
          omega
        · simp only [if_true]
          exact ih true

/-- A successful prefix test yields a decomposition. -/
theorem strHasPre_decomp (n : Str) :
    ∀ h : Str, strHasPre n h = true → ∃ suf, h = n ++ suf := by
  induction n with
  | nil => intro h _; exact ⟨h, rfl⟩
  | cons a as ih =>
      intro h hp
      cases h with
      | nil => cases hp
      | cons b bs =>
          have hab : (a = b) ∧ strHasPre as bs = true := by
            simpa [strHasPre] using hp
          rcases ih bs hab.2 with ⟨suf, hsuf⟩
          exact ⟨suf, by rw [List.cons_append, ← hsuf, hab.1]⟩

/-- A successful substring test yields a decomposition. -/
theorem containsSub_decomp (n : Str) :
    ∀ h : Str, containsSub n h = true → ∃ pre suf, h = pre ++ (n ++ suf) := by
  intro h
  induction h with
  | nil =>
      intro hc
      have hp : strHasPre n [] = true := hc
      rcases strHasPre_decomp n [] hp with ⟨suf, hsuf⟩
      exact ⟨[], suf, hsuf⟩
  | cons c rest ih =>
      intro hc
      rcases Bool.or_eq_true_iff.mp hc with h1 | h1
      · rcases strHasPre_decomp n (c :: rest) h1 with ⟨suf, hsuf⟩
        exact ⟨[], suf, hsuf⟩
      · rcases ih h1 with ⟨pre, suf, hsuf⟩
        exact ⟨c :: pre, suf, by rw [List.cons_append, ← hsuf]⟩

/-- The word count of a string is at least that of any substring. -/
theorem wc_mono_of_sub (n h : Str) (hc : containsSub n h = true) :
    wc n false ≤ wc h false := by
  rcases containsSub_decomp n h hc with ⟨pre, suf, hsuf⟩
  calc wc n false ≤ wc (n ++ suf) false := wc_append_right n suf false
    _ ≤ wc (pre ++ (n ++ suf)) false + 1 - 1 := by
        have := wc_prepend (n ++ suf) pre false
        simpa using this
    _ = wc h false := by rw [← hsuf]; omega

/-- `pySplit` produces exactly `wc` words. -/
theorem pySplitAux_length (l : Str) :
    ∀ acc : Str, (pySplitAux l acc).length =
      wc l (¬acc.isEmpty) + (if acc.isEmpty then 0 else 1) := by
  induction l with
  | nil =>
      intro acc
      cases acc <;> simp [pySplitAux, wc]
  | cons c r ih =>
      intro acc
      by_cases h : isPySpace c = true
      · cases acc with
        | nil =>
            rw [show pySplitAux (c :: r) [] =
              if isPySpace c = true then pySplitAux r []
              else pySplitAux r [c] from by simp [pySplitAux], if_pos h]
            have := ih []
            simp only [List.isEmpty_nil] at this ⊢
            rw [this]
            simp [wc, h]
        | cons a as =>
            rw [show pySplitAux (c :: r) (a :: as) =
              if isPySpace c = true then (a :: as).reverse :: pySplitAux r []
              else pySplitAux r (c :: a :: as) from by simp [pySplitAux], if_pos h]
            have := ih []
            simp only [List.isEmpty_nil] at this
            simp only [List.isEmpty_cons, List.length_cons]
            rw [this]
            simp [wc, h]
      · cases acc with
        | nil =>
            rw [show pySplitAux (c :: r) [] =
              if isPySpace c = true then pySplitAux r []
              else pySplitAux r [c] from by simp [pySplitAux], if_neg h]
            have := ih [c]
            simp only [List.isEmpty_cons] at this
            rw [this]
            simp [wc, h]
        | cons a as =>
            rw [show pySplitAux (c :: r) (a :: as) =
              if isPySpace c = true then (a :: as).reverse :: pySplitAux r []
              else pySplitAux r (c :: a :: as) from by simp [pySplitAux], if_neg h]
            have := ih (c :: a :: as)
            simp only [List.isEmpty_cons] at this
            rw [this]
            simp [wc, h]

/-- The length of a Python split is the word count. -/
theorem pySplit_length (l : Str) : (pySplit l).length = wc l false := by
  have := pySplitAux_length l []
  simpa [pySplit] using this

/-- Every string trivially extends to a prefix test over itself. -/
theorem strHasPre_self_append (n : Str) : ∀ s, strHasPre n (n ++ s) = true := by
  induction n with
  | nil => intro s; rfl
  | cons a as ih =>
      intro s
      show (a = a && strHasPre as (as ++ s)) = true
      rw [ih s]
      simp

/-- A decomposition witnesses a substring occurrence. -/
theorem containsSub_of_decomp (n : Str) :
    ∀ (pre suf h : Str), h = pre ++ (n ++ suf) → containsSub n h = true := by
  intro pre
  induction pre with
  | nil =>
      intro suf h hd
      subst hd
      cases n with
      | nil => cases suf <;> rfl
      | cons a as =>
          show (strHasPre (a :: as) ((a :: as) ++ suf) || _) = true
          rw [strHasPre_self_append]
          simp
  | cons c pre2 ih =>
      intro suf h hd
      subst hd
      show (strHasPre n (c :: (pre2 ++ (n ++ suf))) ||
        containsSub n (pre2 ++ (n ++ suf))) = true
      rw [ih suf _ rfl]
      simp

/-- A needle that starts with a non-whitespace character cannot begin
inside an all-whitespace prefix. -/
theorem containsSub_of_ws_prefix (n : Str) (h1 : firstNonWS n = true) :
    ∀ (w h : Str), (∀ c ∈ w, isPySpace c = true) →
      containsSub n (w ++ h) = true → containsSub n h = true := by
  intro w
  induction w with
  | nil => intro h _ hc; exact hc
  | cons c w2 ih =>
      intro h hws hc
      have hcs : isPySpace c = true := hws c (List.mem_cons_self c w2)
      have hrest : containsSub n (w2 ++ h) = true := by
        have hc2 : (strHasPre n (c :: (w2 ++ h)) ||
            containsSub n (w2 ++ h)) = true := hc
        rcases Bool.or_eq_true_iff.mp hc2 with hp | hp
        · exfalso
          cases n with
          | nil => cases h1
          | cons n0 n2 =>
              have he : (n0 = c ∧ strHasPre n2 (w2 ++ h) = true) := by
                simpa [strHasPre] using hp
              have : isPySpace n0 = false := by simpa [firstNonWS] using h1
              rw [he.1, hcs] at this
              cases this
        · exact hp
      exact ih h (fun d hd => hws d (List.mem_cons_of_mem c hd)) hrest

/-- Substring occurrences of a needle with non-whitespace end
characters survive Python stripping. -/
theorem containsSub_pyStrip (n hay : Str) (h1 : firstNonWS n = true)
    (h2 : firstNonWS n.reverse = true) (hc : containsSub n hay = true) :
    containsSub n (pyStrip hay) = true := by
  rcases dropWS_decomp hay with ⟨w, hw, hws⟩
  have hc1 : containsSub n (dropWS hay) = true := by
    apply containsSub_of_ws_prefix n h1 w (dropWS hay) hws
    rw [← hw]
    exact hc
  rcases containsSub_decomp n (dropWS hay) hc1 with ⟨pre, suf, hd⟩
  have hcrev : containsSub n.reverse (dropWS hay).reverse = true := by
    apply containsSub_of_decomp n.reverse suf.reverse pre.reverse
    rw [hd]
    simp [List.reverse_append, List.append_assoc]
  rcases dropWS_decomp (dropWS hay).reverse with ⟨w2, hw2, hws2⟩
  have hc2 : containsSub n.reverse (dropWS ((dropWS hay).reverse)) = true := by
    apply containsSub_of_ws_prefix n.reverse h2 w2 _ hws2
    rw [← hw2]
    exact hcrev
  rcases containsSub_decomp n.reverse _ hc2 with ⟨p2, s2, hd2⟩
  apply containsSub_of_decomp n s2.reverse p2.reverse
  rw [show pyStrip hay = (dropWS ((dropWS hay).reverse)).reverse from rfl, hd2]
  simp [List.reverse_append, List.append_assoc]

set_option maxRecDepth 16384 in
/-- C4: the wake-word detector rejects any input with fewer whitespace
tokens than the canonical phrase `hey robot`; it accepts whenever the
canonical phrase — or any listed variant — occurs as a substring of the
lower-cased input (which is exactly a case-insensitive substring
occurrence in the input); and concretely it accepts `hey robot` and
`HEY ROBOT` and rejects `hey` and `play some music`. -/
theorem wake_word_spec :
    (∀ text : Str, wc text false < (pySplit WAKE_WORD).length →
      matchesWakeWord text = false) ∧
    (∀ text : Str, containsSub WAKE_WORD (lowerStr text) = true →
      matchesWakeWord text = true) ∧
    (∀ text : Str, ∀ v ∈ WAKE_WORD_VARIANTS,
      containsSub (lowerStr v) (lowerStr text) = true →
      matchesWakeWord text = true) ∧
    matchesWakeWord ("hey robot".toList) = true ∧
    matchesWakeWord ("HEY ROBOT".toList) = true ∧
    matchesWakeWord ("hey".toList) = false ∧
    matchesWakeWord ("play some music".toList) = false := by
  have hlen : ∀ text : Str,
      (pySplit (pyStrip (lowerStr text))).length = wc text false := by
    intro text
    rw [pySplit_length, wc_pyStrip, wc_lowerStr]
  refine ⟨?_, ?_, ?_, by decide, by decide, by decide, by decide⟩
  · intro text hlt
    unfold matchesWakeWord
    dsimp only
    rw [if_pos (by rw [hlen text]; exact hlt)]
  · intro text hsub0
    have hsub : containsSub WAKE_WORD (pyStrip (lowerStr text)) = true :=
      containsSub_pyStrip WAKE_WORD (lowerStr text) (by decide) (by decide) hsub0
    have hguard : ¬ (pySplit (pyStrip (lowerStr text))).length <
        (pySplit WAKE_WORD).length := by
      rw [hlen text]
      have hmono := wc_mono_of_sub WAKE_WORD (pyStrip (lowerStr text)) hsub
      have hw2 : wc WAKE_WORD false = 2 := by decide
      have hs2 : (pySplit WAKE_WORD).length = 2 := by decide
      rw [hs2]
      rw [hw2] at hmono
      have hinv : wc (pyStrip (lowerStr text)) false = wc text false := by
        rw [wc_pyStrip, wc_lowerStr]
      omega
    unfold matchesWakeWord
    dsimp only
    rw [if_neg hguard, if_pos hsub]
  · intro text v hv hsub0
    have hedge : firstNonWS (lowerStr v) = true ∧
        firstNonWS (lowerStr v).reverse = true := by
      have hall : ∀ u ∈ WAKE_WORD_VARIANTS, firstNonWS (lowerStr u) = true ∧
          firstNonWS (lowerStr u).reverse = true := by decide
      exact hall v hv
    have hsub : containsSub (lowerStr v) (pyStrip (lowerStr text)) = true :=
      containsSub_pyStrip (lowerStr v) (lowerStr text) hedge.1 hedge.2 hsub0
    have hv2 : wc (lowerStr v) false = 2 := by
      have hall : ∀ u ∈ WAKE_WORD_VARIANTS, wc (lowerStr u) false = 2 := by
        decide
      exact hall v hv
    have hguard : ¬ (pySplit (pyStrip (lowerStr text))).length <
        (pySplit WAKE_WORD).length := by
      rw [hlen text]
      have hmono := wc_mono_of_sub (lowerStr v) (pyStrip (lowerStr text)) hsub
      have hs2 : (pySplit WAKE_WORD).length = 2 := by decide
      rw [hs2]
      rw [hv2] at hmono
      have hinv : wc (pyStrip (lowerStr text)) false = wc text false := by
        rw [wc_pyStrip, wc_lowerStr]
      omega
    have hany : (WAKE_WORD_VARIANTS.any fun u =>
        containsSub (lowerStr u) (pyStrip (lowerStr text))) = true :=
      List.any_eq_true.mpr ⟨v, hv, hsub⟩
    unfold matchesWakeWord
    dsimp only
    by_cases hcanon : containsSub WAKE_WORD (pyStrip (lowerStr text)) = true
    · rw [if_neg hguard, if_pos hcanon]
    · rw [if_neg hguard, if_neg hcanon, if_pos hany]

/-- Witness for C4: the single-token input `robot` has fewer tokens
than the wake phrase and is rejected. -/
theorem wake_word_spec_witness : matchesWakeWord ("robot".toList) = false :=
  wake_word_spec.1 ("robot".toList) (by decide)

/-- The classifier result on the normalized C7 text: the navigation
match `where is` (8 of 20 characters) scores
`0.9 * (0.7 + 0.3 * 8/20) = 0.738`, beating the campus-info match
`where is the` at `0.7 * (0.7 + 0.3 * 12/20) = 0.616`. -/
theorem scoreC7 : scoreIntents searchC7 ("where is the library".toList) =
    ("navigation", 369/500) := by
  unfold scoreIntents INTENT_PATTERN_NAMES
  rw [if_neg (by decide)]
  simp only [scoreGo, confOf, searchC7, intentWeight, String.reduceEq, reduceIte,
    Option.map_some', Option.map_none', List.length_cons, List.length_nil]
  norm_num

set_option maxRecDepth 16384 in
/-- C7 counterexample: on the input `vhere is the liberry`
(normalized to `where is the library`), even with `Central Library`
among the location candidates, `central library` is not a substring of
the normalized text and no location entity is extracted at all — in
particular no entity `Central Library` with score 100. -/
theorem c7_end_to_end_counterexample :
    containsSub (lowerStr ("Central Library".toList))
      (preprocessText ("vhere is the liberry".toList)) = false ∧
    (parse cfgC7 searchC7 ("vhere is the liberry".toList)).entities.location =
      none := by
  constructor
  · decide
  · unfold parse
    dsimp only
    rw [if_neg (by decide)]
    have he : extractEntities cfgC7
        (preprocessText (pyStrip ("vhere is the liberry".toList))) = {} := by
      decide
    rw [he]
    simp [resolveEntityConflicts]

set_option maxRecDepth 16384 in
/-- C7 (amended): `vhere is the liberry` normalizes to
`where is the library` and is classified as `navigation` with
confidence `0.738`; but `central library` is not a substring of the
normalized text, its best fuzzy score is 62 — below the threshold 70 —
so no location entity is extracted and the entities are empty, while
`raw_text` keeps the unnormalized input. -/
theorem c7_end_to_end_amended :
    preprocessText ("vhere is the liberry".toList) =
      ("where is the library".toList) ∧
    containsSub (lowerStr ("Central Library".toList))
      ("where is the library".toList) = false ∧
    fuzzPartNat ("where is the library".toList)
      (lowerStr ("Central Library".toList)) = 62 ∧
    bestFuzzyMatch 70 ("where is the library".toList)
      [("Central Library".toList)] = none ∧
    (parse cfgC7 searchC7 ("vhere is the liberry".toList)).intent =
      "navigation" ∧
    (parse cfgC7 searchC7 ("vhere is the liberry".toList)).confidence =
      369/500 ∧
    (parse cfgC7 searchC7 ("vhere is the liberry".toList)).entities = {} ∧
    (parse cfgC7 searchC7 ("vhere is the liberry".toList)).raw_text =
      ("vhere is the liberry".toList) := by
  have hstrip : pyStrip ("vhere is the liberry".toList) =
      ("vhere is the liberry".toList) := by decide
  have hpre : preprocessText ("vhere is the liberry".toList) =
      ("where is the library".toList) := by decide
  have he : extractEntities cfgC7
      (preprocessText (pyStrip ("vhere is the liberry".toList))) = {} := by
    decide
  refine ⟨hpre, by decide, by decide, by decide, ?_, ?_, ?_, ?_⟩
  · unfold parse
    dsimp only
    rw [if_neg (by decide), he, hstrip, hpre, scoreC7]
    simp [inferFromEntities, Entities.nonempty]
  · unfold parse
    dsimp only
    rw [if_neg (by decide), he, hstrip, hpre, scoreC7]
    simp [inferFromEntities, Entities.nonempty]
  · unfold parse
    dsimp only
    rw [if_neg (by decide), he]
    simp [resolveEntityConflicts]
  · unfold parse
    dsimp only
    rw [if_neg (by decide)]
    exact hstrip
